import Mathlib

/-!
Verification of the AutoLighthouse analysis-and-state pipeline.

Shallow embedding of the TypeScript sources:
  - `src/types.ts`      : metric keys, snapshots, history schema, regressions
  - `src/regression.ts` : rolling-average regression detection
  - `src/index.ts`      : per-cycle analysis fold (`run`), `medianMetrics`
  - `src/history.ts`    : advisory-lock `saveHistory` with run trimming
  - `src/issues.ts`     : tracking-issue lifecycle (`manageIssue`)
  - `src/utils.ts` / `src/lhr.ts` / `src/history.ts` : path validation

JavaScript numbers are modelled as rationals (`ℚ`); JS arrays as `List`;
JS objects used as string-keyed maps as association lists; fallible or
effectful code takes its external inputs (lock contention schedule, file
existence, API responses) as explicit parameters and returns its effects
(written file contents, issued API calls) as explicit values.
-/

/-- The six tracked metric keys (`METRIC_KEYS` in `src/types.ts`). -/
inductive MetricKey where
  | firstContentfulPaint
  | largestContentfulPaint
  | cumulativeLayoutShift
  | totalBlockingTime
  | speedIndex
  | interactive
deriving DecidableEq, Repr

/-- `METRIC_KEYS` from `src/types.ts`, in source order. -/
def METRIC_KEYS : List MetricKey :=
  [.firstContentfulPaint, .largestContentfulPaint, .cumulativeLayoutShift,
   .totalBlockingTime, .speedIndex, .interactive]

/-- `Metrics = Record<MetricKey, number | undefined>` from `src/types.ts`:
a record with one optional numeric value per tracked key. -/
structure Metrics where
  firstContentfulPaint : Option ℚ
  largestContentfulPaint : Option ℚ
  cumulativeLayoutShift : Option ℚ
  totalBlockingTime : Option ℚ
  speedIndex : Option ℚ
  interactive : Option ℚ
deriving DecidableEq, Repr

/-- Indexing a `Metrics` record by key (`metrics[metric]` in the source). -/
def Metrics.getKey (m : Metrics) (k : MetricKey) : Option ℚ :=
  match k with
  | .firstContentfulPaint => m.firstContentfulPaint
  | .largestContentfulPaint => m.largestContentfulPaint
  | .cumulativeLayoutShift => m.cumulativeLayoutShift
  | .totalBlockingTime => m.totalBlockingTime
  | .speedIndex => m.speedIndex
  | .interactive => m.interactive

/-- Building a `Metrics` record by assigning every key in turn
(the `result[key] = ...` loop pattern in the source). -/
def Metrics.ofFun (f : MetricKey → Option ℚ) : Metrics :=
  ⟨f .firstContentfulPaint, f .largestContentfulPaint, f .cumulativeLayoutShift,
   f .totalBlockingTime, f .speedIndex, f .interactive⟩

theorem Metrics.getKey_ofFun (f : MetricKey → Option ℚ) (k : MetricKey) :
    (Metrics.ofFun f).getKey k = f k := by
  cases k <;> rfl

theorem mem_METRIC_KEYS (k : MetricKey) : k ∈ METRIC_KEYS := by
  cases k <;> decide

/-- `HistoryRun` from `src/types.ts`. -/
structure HistoryRun where
  metrics : Metrics
  timestamp : String
deriving DecidableEq, Repr

/-- `HistoryEntry` from `src/types.ts`. -/
structure HistoryEntry where
  consecutiveFailures : ℕ
  lastSeen : String
  runs : List HistoryRun
deriving DecidableEq, Repr

/-- `Regression` from `src/types.ts`. -/
structure Regression where
  metric : MetricKey
  current : ℚ
  avg : ℚ
  percentChange : String
deriving DecidableEq, Repr

/-- `MIN_RUNS_FOR_REGRESSION` from `src/regression.ts`. -/
def MIN_RUNS_FOR_REGRESSION : ℕ := 2

/-- `calculateAverage` from `src/regression.ts`: mean of the values of
`metric` over `runs`, skipping absent values; `none` when no value exists. -/
def calculateAverage (runs : List HistoryRun) (metric : MetricKey) : Option ℚ :=
  if (runs.filterMap (fun r => r.metrics.getKey metric)).length = 0 then none
  else some ((runs.filterMap (fun r => r.metrics.getKey metric)).sum /
             ((runs.filterMap (fun r => r.metrics.getKey metric)).length : ℚ))

/-- The em-dash sentinel string used for `percentChange` when the average
is not positive (`src/regression.ts` line 38). -/
def emDash : String := "—"

/-- `Number.prototype.toFixed(1)` (ECMA-262): extract the sign, then round
`|q| * 10` to the nearest integer with ties picking the larger integer, and
render with one digit after the decimal point. -/
def toFixed1 (q : ℚ) : String :=
  let sign : String := if q < 0 then "-" else ""
  let a : ℚ := if q < 0 then -q else q
  let n : ℕ := (⌊a * 10 + 1 / 2⌋).toNat
  sign ++ toString (n / 10) ++ "." ++ toString (n % 10)

/-- `runs.slice(-windowSize)` from `src/regression.ts` line 21: the last
`windowSize` runs, except that JavaScript `slice(-0)` is `slice(0)`, the
whole array. -/
def recentWindow (runs : List HistoryRun) (windowSize : ℕ) : List HistoryRun :=
  if windowSize = 0 then runs else runs.drop (runs.length - windowSize)

/-- `entry?.runs ?? []` from `src/regression.ts` line 20. -/
def entryRuns (entry : Option HistoryEntry) : List HistoryRun :=
  match entry with
  | none => []
  | some e => e.runs

/-- `detectRegressions` from `src/regression.ts`: take the last `windowSize`
runs; with fewer than `MIN_RUNS_FOR_REGRESSION` of them return `[]`;
otherwise flag each metric whose current value strictly exceeds
`avg * (1 + thresholdPercent / 100)`, formatting `percentChange` as a
one-decimal percentage when `avg > 0` and as the em-dash sentinel otherwise.
The call sites in `src/index.ts` use the default `windowSize = 5`. -/
def detectRegressions (metrics : Metrics) (entry : Option HistoryEntry)
    (thresholdPercent : ℚ) (windowSize : ℕ) : List Regression :=
  if (recentWindow (entryRuns entry) windowSize).length < MIN_RUNS_FOR_REGRESSION then []
  else
    METRIC_KEYS.filterMap (fun metric =>
      match metrics.getKey metric with
      | none => none
      | some current =>
        match calculateAverage (recentWindow (entryRuns entry) windowSize) metric with
        | none => none
        | some avg =>
          if avg * (1 + thresholdPercent / 100) < current then
            some { metric := metric, current := current, avg := avg,
                   percentChange :=
                     if 0 < avg then toFixed1 ((current - avg) / avg * 100) ++ "%"
                     else emDash }
          else none)

/-- Number of windowed runs in which `metric` has a present value (the
length of the `values` list inside `calculateAverage`). -/
def presentCount (runs : List HistoryRun) (metric : MetricKey) : ℕ :=
  (runs.filterMap (fun r => r.metrics.getKey metric)).length

/-- A `Metrics` record with every key absent. -/
def Metrics.none6 : Metrics := ⟨none, none, none, none, none, none⟩

/-- A `Metrics` record with only `firstContentfulPaint` set. -/
def Metrics.fcpOnly (v : ℚ) : Metrics := ⟨some v, none, none, none, none, none⟩

/-! ### Inversion and construction lemmas for `detectRegressions` -/

/-- Characterisation of membership in the output of `detectRegressions`:
a regression record is produced exactly when the window holds at least
`MIN_RUNS_FOR_REGRESSION` runs, the metric has a current value and a
computable average, the strict threshold inequality holds, and the
percent-change string has the guarded form. -/
theorem mem_detectRegressions_iff {metrics : Metrics} {entry : Option HistoryEntry}
    {θ : ℚ} {w : ℕ} {r : Regression} :
    r ∈ detectRegressions metrics entry θ w ↔
      2 ≤ (recentWindow (entryRuns entry) w).length ∧
      metrics.getKey r.metric = some r.current ∧
      calculateAverage (recentWindow (entryRuns entry) w) r.metric = some r.avg ∧
      r.avg * (1 + θ / 100) < r.current ∧
      r.percentChange =
        (if 0 < r.avg then toFixed1 ((r.current - r.avg) / r.avg * 100) ++ "%" else emDash) := by
  unfold detectRegressions
  constructor
  · intro h
    split at h
    · simp at h
    · next hlen =>
      obtain ⟨k, _, hfk⟩ := List.mem_filterMap.mp h
      split at hfk
      · exact absurd hfk (by simp)
      · next c hgk =>
        split at hfk
        · exact absurd hfk (by simp)
        · next a hav =>
          split at hfk
          · next hflag =>
            obtain rfl := Option.some.inj hfk
            refine ⟨by unfold MIN_RUNS_FOR_REGRESSION at hlen; omega, hgk, hav, hflag, rfl⟩
          · exact absurd hfk (by simp)
  · rintro ⟨hlen, hc, ha, hflag, hpc⟩
    split
    · next hlt => exact absurd hlen (by unfold MIN_RUNS_FOR_REGRESSION at hlt; omega)
    · refine List.mem_filterMap.mpr ⟨r.metric, mem_METRIC_KEYS _, ?_⟩
      rw [hc, ha]
      dsimp only
      rw [if_pos hflag]
      cases r with
      | mk metric current avg percentChange => simp only at hpc ⊢; rw [hpc]

/-- A computable average needs at least one present value in the window. -/
theorem calculateAverage_presentCount {runs : List HistoryRun} {k : MetricKey} {a : ℚ}
    (h : calculateAverage runs k = some a) : 1 ≤ presentCount runs k := by
  unfold calculateAverage at h
  unfold presentCount
  split at h
  · exact absurd h (by simp)
  · omega

/-- When every stored value is non-negative, so is any computable average. -/
theorem calculateAverage_nonneg {runs : List HistoryRun} {k : MetricKey} {a : ℚ}
    (hv : ∀ run ∈ runs, ∀ v, run.metrics.getKey k = some v → 0 ≤ v)
    (h : calculateAverage runs k = some a) : 0 ≤ a := by
  unfold calculateAverage at h
  split at h
  · exact absurd h (by simp)
  · obtain rfl := Option.some.inj h
    apply div_nonneg
    · apply List.sum_nonneg
      intro x hx
      obtain ⟨run, hrun, hvx⟩ := List.mem_filterMap.mp hx
      exact hv run hrun x hvx
    · exact_mod_cast Nat.zero_le _

/-- The runs in the window are among the entry's runs. -/
theorem recentWindow_subset (runs : List HistoryRun) (w : ℕ) :
    ∀ run ∈ recentWindow runs w, run ∈ runs := by
  intro run h
  unfold recentWindow at h
  split at h
  · exact h
  · exact List.drop_subset _ _ h

/-! ### C1: regression baseline size -/

/-- C1 counterexample: with a 2-run window in which only one run carries a
`firstContentfulPaint` value, `detectRegressions` still flags a regression
for that key, although its rolling average is computed from a single
historical run — the claim that a regression is only flagged when the
average for that key is computable from at least 2 runs is false. -/
theorem c1_singleValueBaseline_counterexample :
    ∃ r ∈ detectRegressions (Metrics.fcpOnly 1000)
        (some ⟨0, "t0", [⟨Metrics.fcpOnly 100, "t1"⟩, ⟨Metrics.none6, "t2"⟩]⟩) 10 5,
      presentCount
        (recentWindow
          (entryRuns (some ⟨0, "t0", [⟨Metrics.fcpOnly 100, "t1"⟩, ⟨Metrics.none6, "t2"⟩]⟩)) 5)
        r.metric < 2 := by
  refine ⟨⟨.firstContentfulPaint, 1000, 100,
      if 0 < (100 : ℚ) then toFixed1 ((1000 - 100) / 100 * 100) ++ "%" else emDash⟩,
    mem_detectRegressions_iff.mpr ⟨by decide, rfl, ?_, by norm_num, rfl⟩, by decide⟩
  norm_num [calculateAverage, recentWindow, entryRuns, Metrics.getKey, Metrics.fcpOnly,
    Metrics.none6, List.filterMap_cons, List.filterMap_nil]

/-- C1 (amended): when the window holds fewer than 2 runs, `detectRegressions`
returns the empty list regardless of the current values; and a regression for
a metric key is only ever flagged when the window holds at least 2 runs and
the rolling average for that key is computable from at least one present
value among the windowed runs. -/
theorem c1_regressionBaseline (metrics : Metrics) (entry : Option HistoryEntry)
    (θ : ℚ) (w : ℕ) :
    ((recentWindow (entryRuns entry) w).length < 2 →
      detectRegressions metrics entry θ w = []) ∧
    (∀ r ∈ detectRegressions metrics entry θ w,
      2 ≤ (recentWindow (entryRuns entry) w).length ∧
      1 ≤ presentCount (recentWindow (entryRuns entry) w) r.metric) := by
  constructor
  · intro hlt
    unfold detectRegressions
    rw [if_pos]
    unfold MIN_RUNS_FOR_REGRESSION
    omega
  · intro r hr
    obtain ⟨hlen, _, ha, _, _⟩ := mem_detectRegressions_iff.mp hr
    exact ⟨hlen, calculateAverage_presentCount ha⟩

/-- C1 witness: at concrete inputs the amended claim applies — an empty
history yields no regressions, and a flagged regression over a fully
populated 2-run window indeed has a 2-run window with a present value. -/
theorem c1_regressionBaseline_witness :
    (detectRegressions (Metrics.fcpOnly 1200) none 10 5 = []) ∧
    (2 ≤ (recentWindow
        (entryRuns (some ⟨0, "t0", [⟨Metrics.fcpOnly 1000, "t1"⟩, ⟨Metrics.fcpOnly 1000, "t2"⟩]⟩))
        5).length ∧
     1 ≤ presentCount
        (recentWindow
          (entryRuns (some ⟨0, "t0", [⟨Metrics.fcpOnly 1000, "t1"⟩, ⟨Metrics.fcpOnly 1000, "t2"⟩]⟩))
          5)
        MetricKey.firstContentfulPaint) := by
  constructor
  · exact (c1_regressionBaseline (Metrics.fcpOnly 1200) none 10 5).1 (by decide)
  · exact (c1_regressionBaseline (Metrics.fcpOnly 1200)
      (some ⟨0, "t0", [⟨Metrics.fcpOnly 1000, "t1"⟩, ⟨Metrics.fcpOnly 1000, "t2"⟩]⟩) 10 5).2
      ⟨.firstContentfulPaint, 1200, 1000,
        if 0 < (1000 : ℚ) then toFixed1 ((1200 - 1000) / 1000 * 100) ++ "%" else emDash⟩
      (mem_detectRegressions_iff.mpr ⟨by decide, rfl,
        by norm_num [calculateAverage, recentWindow, entryRuns, Metrics.getKey,
          Metrics.fcpOnly, List.filterMap_cons, List.filterMap_nil],
        by norm_num, rfl⟩)

/-! ### C5: lower-is-better -/

/-- C5 counterexample: the claim quantifies over every configured threshold
and every history window, but `detectRegressions` flags a current value
strictly below the rolling average when the configured threshold is negative
(here `-50`, which `parseInt` accepts from the environment), and also when
the threshold is the default `10` but the stored values are negative. -/
theorem c5_lowerIsBetter_counterexample :
    (∃ r ∈ detectRegressions (Metrics.fcpOnly 600)
        (some ⟨0, "t0", [⟨Metrics.fcpOnly 1000, "t1"⟩, ⟨Metrics.fcpOnly 1000, "t2"⟩]⟩) (-50) 5,
      r.current < r.avg) ∧
    (∃ r ∈ detectRegressions (Metrics.fcpOnly (-105))
        (some ⟨0, "t0", [⟨Metrics.fcpOnly (-100), "t1"⟩, ⟨Metrics.fcpOnly (-100), "t2"⟩]⟩) 10 5,
      r.current < r.avg) := by
  constructor
  · refine ⟨⟨.firstContentfulPaint, 600, 1000,
        if 0 < (1000 : ℚ) then toFixed1 ((600 - 1000) / 1000 * 100) ++ "%" else emDash⟩,
      mem_detectRegressions_iff.mpr ⟨by decide, rfl,
        by norm_num [calculateAverage, recentWindow, entryRuns, Metrics.getKey,
          Metrics.fcpOnly, List.filterMap_cons, List.filterMap_nil],
        by norm_num, rfl⟩, by norm_num⟩
  · refine ⟨⟨.firstContentfulPaint, -105, -100,
        if 0 < (-100 : ℚ) then toFixed1 ((-105 - -100) / -100 * 100) ++ "%" else emDash⟩,
      mem_detectRegressions_iff.mpr ⟨by decide, rfl,
        by norm_num [calculateAverage, recentWindow, entryRuns, Metrics.getKey,
          Metrics.fcpOnly, List.filterMap_cons, List.filterMap_nil],
        by norm_num, rfl⟩, by norm_num⟩

/-- C5 (amended): provided the configured threshold is non-negative and
every value stored in the history entry's runs is non-negative, a current
value strictly lower than the rolling average never produces a regression:
every regression that `detectRegressions` emits satisfies `avg ≤ current`. -/
theorem c5_lowerIsBetter (metrics : Metrics) (entry : Option HistoryEntry)
    (θ : ℚ) (w : ℕ) (hθ : 0 ≤ θ)
    (hv : ∀ run ∈ entryRuns entry, ∀ k v, run.metrics.getKey k = some v → 0 ≤ v) :
    ∀ r ∈ detectRegressions metrics entry θ w, r.avg ≤ r.current := by
  intro r hr
  obtain ⟨_, _, ha, hflag, _⟩ := mem_detectRegressions_iff.mp hr
  have havg : 0 ≤ r.avg := by
    refine calculateAverage_nonneg ?_ ha
    intro run hrun v hv'
    exact hv run (recentWindow_subset (entryRuns entry) w run hrun) r.metric v hv'
  have hmul : r.avg ≤ r.avg * (1 + θ / 100) := by nlinarith
  exact le_of_lt (lt_of_le_of_lt hmul hflag)

/-- C5 witness: with the default threshold 10 and a non-negative 2-run
window averaging 1000, every flagged regression has `avg ≤ current`. -/
theorem c5_lowerIsBetter_witness :
    (detectRegressions (Metrics.fcpOnly 1200)
        (some ⟨0, "t0", [⟨Metrics.fcpOnly 1000, "t1"⟩, ⟨Metrics.fcpOnly 1000, "t2"⟩]⟩) 10 5).all
      (fun r => decide (r.avg ≤ r.current)) = true := by
  rw [List.all_eq_true]
  intro r hr
  refine decide_eq_true ?_
  refine c5_lowerIsBetter (Metrics.fcpOnly 1200)
    (some ⟨0, "t0", [⟨Metrics.fcpOnly 1000, "t1"⟩, ⟨Metrics.fcpOnly 1000, "t2"⟩]⟩) 10 5
    (by norm_num) ?_ r hr
  intro run hrun k v hvk
  fin_cases hrun <;> cases k <;>
    simp [Metrics.getKey, Metrics.fcpOnly] at hvk <;> subst hvk <;> norm_num

/-! ### C6: zero-average handling -/

/-- C6: when the rolling average for a key is 0 and the current value is 0,
no regression is produced for that key; when the average is 0 and the
current value is positive, the produced regression carries the em-dash
sentinel as its `percentChange`; and every emitted regression either has a
positive average with a computed one-decimal percentage string, or carries
the em-dash sentinel — the division path is only taken for positive
averages, so no non-finite percent-change string is ever emitted. -/
theorem c6_zeroAverage (metrics : Metrics) (entry : Option HistoryEntry)
    (θ : ℚ) (w : ℕ) (k : MetricKey) (c : ℚ) :
    (metrics.getKey k = some 0 →
      calculateAverage (recentWindow (entryRuns entry) w) k = some 0 →
      ∀ r ∈ detectRegressions metrics entry θ w, r.metric ≠ k) ∧
    (2 ≤ (recentWindow (entryRuns entry) w).length →
      metrics.getKey k = some c → 0 < c →
      calculateAverage (recentWindow (entryRuns entry) w) k = some 0 →
      (⟨k, c, 0, emDash⟩ : Regression) ∈ detectRegressions metrics entry θ w) ∧
    (∀ r ∈ detectRegressions metrics entry θ w,
      (0 < r.avg ∧ r.percentChange = toFixed1 ((r.current - r.avg) / r.avg * 100) ++ "%") ∨
      r.percentChange = emDash) := by
  refine ⟨?_, ?_, ?_⟩
  · intro h0 ha0 r hr hk
    obtain ⟨_, hc, ha, hflag, _⟩ := mem_detectRegressions_iff.mp hr
    rw [hk] at hc ha
    have hcur : r.current = 0 := Option.some.inj (hc.symm.trans h0)
    have havg : r.avg = 0 := Option.some.inj (ha.symm.trans ha0)
    rw [hcur, havg, zero_mul] at hflag
    exact absurd hflag (lt_irrefl 0)
  · intro hlen hc hc0 ha0
    refine mem_detectRegressions_iff.mpr ⟨hlen, hc, ha0, ?_, ?_⟩
    · simpa using hc0
    · simp [emDash]
  · intro r hr
    obtain ⟨_, _, _, _, hpc⟩ := mem_detectRegressions_iff.mp hr
    by_cases hpos : 0 < r.avg
    · exact Or.inl ⟨hpos, by rwa [if_pos hpos] at hpc⟩
    · exact Or.inr (by rwa [if_neg hpos] at hpc)

/-- C6 witness: a history window of two runs both storing 0 for
`firstContentfulPaint` gives average 0; a current value of 0 produces no
regression for that key, while a current value of 7 produces the regression
record with the em-dash sentinel. -/
theorem c6_zeroAverage_witness :
    ((detectRegressions (Metrics.fcpOnly 0)
        (some ⟨0, "t0", [⟨Metrics.fcpOnly 0, "t1"⟩, ⟨Metrics.fcpOnly 0, "t2"⟩]⟩) 10 5).all
      (fun r => decide (r.metric ≠ MetricKey.firstContentfulPaint)) = true) ∧
    ((⟨.firstContentfulPaint, 7, 0, emDash⟩ : Regression) ∈
      detectRegressions (Metrics.fcpOnly 7)
        (some ⟨0, "t0", [⟨Metrics.fcpOnly 0, "t1"⟩, ⟨Metrics.fcpOnly 0, "t2"⟩]⟩) 10 5) := by
  constructor
  · rw [List.all_eq_true]
    intro r hr
    refine decide_eq_true ?_
    exact (c6_zeroAverage (Metrics.fcpOnly 0)
      (some ⟨0, "t0", [⟨Metrics.fcpOnly 0, "t1"⟩, ⟨Metrics.fcpOnly 0, "t2"⟩]⟩) 10 5
      .firstContentfulPaint 0).1 rfl
      (by norm_num [calculateAverage, recentWindow, entryRuns, Metrics.getKey,
        Metrics.fcpOnly, List.filterMap_cons, List.filterMap_nil]) r hr
  · exact (c6_zeroAverage (Metrics.fcpOnly 7)
      (some ⟨0, "t0", [⟨Metrics.fcpOnly 0, "t1"⟩, ⟨Metrics.fcpOnly 0, "t2"⟩]⟩) 10 5
      .firstContentfulPaint 7).2.1 (by decide) rfl (by norm_num)
      (by norm_num [calculateAverage, recentWindow, entryRuns, Metrics.getKey,
        Metrics.fcpOnly, List.filterMap_cons, List.filterMap_nil])

/-! ### Median aggregation (`medianMetrics` in `src/index.ts`) -/

/-- The ascending numeric sort `values.sort((a, b) => a - b)` used by
`medianMetrics`. -/
def sortAsc (l : List ℚ) : List ℚ := l.insertionSort (· ≤ ·)

/-- The values of key `k` present across the runs being aggregated
(the `allMetrics.map(...).filter(...)` chain inside `medianMetrics`). -/
def presentValues (allMetrics : List Metrics) (k : MetricKey) : List ℚ :=
  allMetrics.filterMap (fun m => m.getKey k)

/-- `medianMetrics` from `src/index.ts`: with exactly one run return it
unchanged; otherwise, per metric key, sort the present values ascending and
pick the element at index `⌊length / 2⌋`, leaving the key absent when no
value is present. -/
def medianMetrics (allMetrics : List Metrics) : Metrics :=
  match allMetrics with
  | [m] => m
  | _ => Metrics.ofFun (fun key =>
      (sortAsc (presentValues allMetrics key))[(sortAsc (presentValues allMetrics key)).length / 2]?)

theorem medianMetrics_of_ne_one {ms : List Metrics} (h : ms.length ≠ 1) :
    medianMetrics ms = Metrics.ofFun (fun key =>
      (sortAsc (presentValues ms key))[(sortAsc (presentValues ms key)).length / 2]?) := by
  match ms with
  | [] => rfl
  | [m] => simp at h
  | a :: b :: rest => rfl

theorem sortAsc_length (l : List ℚ) : (sortAsc l).length = l.length :=
  (List.perm_insertionSort _ l).length_eq

theorem sortAsc_mem {l : List ℚ} {v : ℚ} (h : v ∈ sortAsc l) : v ∈ l :=
  (List.perm_insertionSort _ l).mem_iff.mp h

/-! ### C4: median aggregation -/

/-- C4: `medianMetrics` returns a single run unchanged; a key with zero
present values stays absent; the aggregated value for a key depends only on
that key's values across the runs (per-metric independence, skipping runs
where the key is absent); and aggregating the three values 950, 1050, 1000
for one metric yields 1000. -/
theorem c4_medianAggregation (m m1 m2 m3 : Metrics) (ms ms2 : List Metrics) (k : MetricKey) :
    medianMetrics [m] = m ∧
    (presentValues ms k = [] → (medianMetrics ms).getKey k = none) ∧
    (ms.map (fun x => x.getKey k) = ms2.map (fun x => x.getKey k) →
      (medianMetrics ms).getKey k = (medianMetrics ms2).getKey k) ∧
    (m1.getKey k = some 950 → m2.getKey k = some 1050 → m3.getKey k = some 1000 →
      (medianMetrics [m1, m2, m3]).getKey k = some 1000) := by
  refine ⟨rfl, ?_, ?_, ?_⟩
  · intro hpv
    match ms with
    | [] =>
      rw [medianMetrics_of_ne_one (by simp), Metrics.getKey_ofFun, hpv]
      rfl
    | [x] =>
      have : x.getKey k = none := by
        by_contra hne
        cases hx : x.getKey k with
        | none => exact hne hx
        | some v => simp [presentValues, hx] at hpv
      simpa [medianMetrics] using this
    | a :: b :: rest =>
      rw [medianMetrics_of_ne_one (by simp), Metrics.getKey_ofFun, hpv]
      rfl
  · intro hmap
    have hlen : ms.length = ms2.length := by
      have := congrArg List.length hmap
      simpa using this
    have hpv : presentValues ms k = presentValues ms2 k := by
      have e1 : ∀ (l : List Metrics),
          presentValues l k = (l.map (fun x => x.getKey k)).filterMap id := by
        intro l
        unfold presentValues
        rw [List.filterMap_map]
        rfl
      rw [e1, e1, hmap]
    by_cases h1 : ms.length = 1
    · match ms, ms2 with
      | [x], [y] =>
        have : x.getKey k = y.getKey k := by simpa using hmap
        simpa [medianMetrics] using this
      | [x], [] => simp at hlen
      | [x], y1 :: y2 :: yr => simp at hlen
      | [], _ => simp at h1
      | x1 :: x2 :: xr, _ => simp at h1
    · rw [medianMetrics_of_ne_one h1, medianMetrics_of_ne_one (by omega),
        Metrics.getKey_ofFun, Metrics.getKey_ofFun, hpv]
  · intro h1 h2 h3
    rw [medianMetrics_of_ne_one (by simp), Metrics.getKey_ofFun]
    have hpv : presentValues [m1, m2, m3] k = [950, 1050, 1000] := by
      simp [presentValues, h1, h2, h3]
    rw [hpv]
    decide

/-- C4 witness: concrete instances — a single run returned unchanged, an
all-absent key staying absent, per-key independence across runs differing
only on other keys, and the 950/1050/1000 aggregate equal to 1000. -/
theorem c4_medianAggregation_witness :
    medianMetrics [Metrics.fcpOnly 5] = Metrics.fcpOnly 5 ∧
    (medianMetrics [Metrics.none6, Metrics.none6]).getKey .firstContentfulPaint = none ∧
    (medianMetrics [Metrics.fcpOnly 3, Metrics.fcpOnly 4]).getKey .firstContentfulPaint =
      (medianMetrics [⟨some 3, some 99, none, none, none, none⟩,
                      ⟨some 4, none, some 7, none, none, none⟩]).getKey .firstContentfulPaint ∧
    (medianMetrics [Metrics.fcpOnly 950, Metrics.fcpOnly 1050, Metrics.fcpOnly 1000]).getKey
      .firstContentfulPaint = some 1000 := by
  refine ⟨?_, ?_, ?_, ?_⟩
  · exact (c4_medianAggregation (Metrics.fcpOnly 5) Metrics.none6 Metrics.none6 Metrics.none6
      [] [] .firstContentfulPaint).1
  · exact (c4_medianAggregation Metrics.none6 Metrics.none6 Metrics.none6 Metrics.none6
      [Metrics.none6, Metrics.none6] [] .firstContentfulPaint).2.1 (by decide)
  · exact (c4_medianAggregation Metrics.none6 Metrics.none6 Metrics.none6 Metrics.none6
      [Metrics.fcpOnly 3, Metrics.fcpOnly 4]
      [⟨some 3, some 99, none, none, none, none⟩, ⟨some 4, none, some 7, none, none, none⟩]
      .firstContentfulPaint).2.2.1 (by decide)
  · exact (c4_medianAggregation Metrics.none6 (Metrics.fcpOnly 950) (Metrics.fcpOnly 1050)
      (Metrics.fcpOnly 1000) [] [] .firstContentfulPaint).2.2.2 rfl rfl rfl

/-! ### C10: the aggregated value is the upper-median observed value -/

/-- C10: for a key with a non-empty list of present values, the aggregated
value equals the element at index `⌊n / 2⌋` of those values sorted
ascending — in particular it is always one of the observed values, and for
even `n` it is the upper of the two middle values, never their mean. -/
theorem c10_medianSelection (ms : List Metrics) (k : MetricKey)
    (h : presentValues ms k ≠ []) :
    ∃ v, (medianMetrics ms).getKey k = some v ∧
      (sortAsc (presentValues ms k))[(presentValues ms k).length / 2]? = some v ∧
      v ∈ presentValues ms k := by
  match ms with
  | [] => simp [presentValues] at h
  | [x] =>
    cases hx : x.getKey k with
    | none => simp [presentValues, hx] at h
    | some v =>
      refine ⟨v, by simpa [medianMetrics] using hx, ?_, ?_⟩
      · simp [presentValues, hx, sortAsc, List.insertionSort]
      · simp [presentValues, hx]
  | a :: b :: rest =>
    rw [medianMetrics_of_ne_one (by simp), Metrics.getKey_ofFun]
    have hlen : (sortAsc (presentValues (a :: b :: rest) k)).length =
        (presentValues (a :: b :: rest) k).length := sortAsc_length _
    have hpos : 0 < (presentValues (a :: b :: rest) k).length := List.length_pos.mpr h
    have hidx : (presentValues (a :: b :: rest) k).length / 2 <
        (sortAsc (presentValues (a :: b :: rest) k)).length := by
      rw [hlen]
      exact Nat.div_lt_self hpos (by norm_num)
    refine ⟨(sortAsc (presentValues (a :: b :: rest) k))[(presentValues
        (a :: b :: rest) k).length / 2], ?_, ?_, ?_⟩
    · conv_lhs => rw [hlen]
      exact List.getElem?_eq_getElem hidx
    · exact List.getElem?_eq_getElem hidx
    · exact sortAsc_mem (List.getElem_mem hidx)

/-- C10 witness: over the present values 950, 1050, 1000 (n = 3) and over
950, 1050 (n = 2, the even case picking the upper middle 1050), the
aggregated value is the sorted element at index `⌊n / 2⌋`. -/
theorem c10_medianSelection_witness :
    (∃ v, (medianMetrics [Metrics.fcpOnly 950, Metrics.fcpOnly 1050, Metrics.fcpOnly 1000]).getKey
        .firstContentfulPaint = some v ∧
      (sortAsc (presentValues [Metrics.fcpOnly 950, Metrics.fcpOnly 1050, Metrics.fcpOnly 1000]
          .firstContentfulPaint))[(presentValues
            [Metrics.fcpOnly 950, Metrics.fcpOnly 1050, Metrics.fcpOnly 1000]
            .firstContentfulPaint).length / 2]? = some v ∧
      v ∈ presentValues [Metrics.fcpOnly 950, Metrics.fcpOnly 1050, Metrics.fcpOnly 1000]
        .firstContentfulPaint) ∧
    (∃ v, (medianMetrics [Metrics.fcpOnly 950, Metrics.fcpOnly 1050]).getKey
        .firstContentfulPaint = some v ∧
      (sortAsc (presentValues [Metrics.fcpOnly 950, Metrics.fcpOnly 1050]
          .firstContentfulPaint))[(presentValues [Metrics.fcpOnly 950, Metrics.fcpOnly 1050]
            .firstContentfulPaint).length / 2]? = some v ∧
      v ∈ presentValues [Metrics.fcpOnly 950, Metrics.fcpOnly 1050] .firstContentfulPaint) := by
  constructor
  · exact c10_medianSelection [Metrics.fcpOnly 950, Metrics.fcpOnly 1050, Metrics.fcpOnly 1000]
      .firstContentfulPaint (by decide)
  · exact c10_medianSelection [Metrics.fcpOnly 950, Metrics.fcpOnly 1050]
      .firstContentfulPaint (by decide)

/-! ### The per-cycle analysis fold (`run` in `src/index.ts`) -/

/-- `Profile` from `src/types.ts`. -/
inductive Profile where
  | mobile
  | tablet
  | desktop
deriving DecidableEq, Repr

def Profile.str : Profile → String
  | .mobile => "mobile"
  | .tablet => "tablet"
  | .desktop => "desktop"

/-- `AssertionResult` from `src/types.ts`. -/
structure AssertionResult where
  auditId : String
  level : String
  actual : ℚ
  expected : ℚ
  operator : String
  passed : Bool
  url : Option String
deriving DecidableEq, Repr

/-- `ProfileResult` assembled in the `run` loop of `src/index.ts`. -/
structure ProfileResult where
  profile : Profile
  metrics : Metrics
  runMetrics : List Metrics
  regressions : List Regression
  assertions : List AssertionResult
  consecutiveFailures : ℕ
  passed : Bool
  reportLink : Option String
deriving DecidableEq, Repr

/-- One element of the `raw` array in `run`: the per-(profile, URL) data
after artifact parsing and median aggregation; `assertions` already holds
the failed assertions scoped to this URL. -/
structure RawItem where
  profile : Profile
  url : String
  pathname : String
  metrics : Metrics
  runMetrics : List Metrics
  assertions : List AssertionResult
  reportLink : Option String
deriving DecidableEq, Repr

/-- The history key `"{profile}:{pathname}"` from `src/index.ts` line 103. -/
def historyKey (r : RawItem) : String := r.profile.str ++ ":" ++ r.pathname

/-- Lookup in the `history.paths` string-keyed object (association list). -/
def lookupPath (paths : List (String × HistoryEntry)) (key : String) : Option HistoryEntry :=
  match paths with
  | [] => none
  | (k, e) :: rest => if k = key then some e else lookupPath rest key

/-- Assignment `history.paths[key] = entry` on the string-keyed object. -/
def setPath (paths : List (String × HistoryEntry)) (key : String) (e : HistoryEntry) :
    List (String × HistoryEntry) :=
  match paths with
  | [] => [(key, e)]
  | (k, e0) :: rest => if k = key then (key, e) :: rest else (k, e0) :: setPath rest key e

/-- The body of the `for (const r of raw)` loop in `src/index.ts`
(lines 102-137) for one raw item: detect regressions against the current
entry (window 5), compute `hasFailed` from regressions and scoped failed
assertions, reset-or-increment `consecutiveFailures`, append exactly one
`HistoryRun`, and emit the `ProfileResult`. -/
def stepKey (entry : Option HistoryEntry) (r : RawItem) (thresholdPercent : ℚ)
    (now : String) : HistoryEntry × ProfileResult :=
  let regressions := detectRegressions r.metrics entry thresholdPercent 5
  let consecutiveFailures := match entry with | none => 0 | some e => e.consecutiveFailures
  let hasFailed : Bool := regressions.length != 0 || r.assertions.length != 0
  let newConsecutive := if hasFailed then consecutiveFailures + 1 else 0
  let baseRuns := match entry with | none => [] | some e => e.runs
  (⟨newConsecutive, now, baseRuns ++ [⟨r.metrics, now⟩]⟩,
   ⟨r.profile, r.metrics, r.runMetrics, regressions, r.assertions, newConsecutive,
    !hasFailed, r.reportLink⟩)

/-- The whole `for (const r of raw)` loop of one report cycle: thread the
in-memory `history.paths` object through `stepKey` for every raw item,
collecting the per-profile results in order. -/
def runCycle (paths : List (String × HistoryEntry)) (raws : List RawItem)
    (thresholdPercent : ℚ) (now : String) :
    List (String × HistoryEntry) × List ProfileResult :=
  match raws with
  | [] => (paths, [])
  | r :: rest =>
    ((runCycle (setPath paths (historyKey r)
        (stepKey (lookupPath paths (historyKey r)) r thresholdPercent now).1)
        rest thresholdPercent now).1,
     (stepKey (lookupPath paths (historyKey r)) r thresholdPercent now).2 ::
       (runCycle (setPath paths (historyKey r)
          (stepKey (lookupPath paths (historyKey r)) r thresholdPercent now).1)
          rest thresholdPercent now).2)

/-! ### History persistence (`src/history.ts`) -/

/-- `History` from `src/types.ts` (the `paths` object as an association
list in insertion order). -/
structure History where
  version : ℕ
  lastUpdated : String
  paths : List (String × HistoryEntry)
deriving DecidableEq, Repr

/-- Failure mode of `saveHistory`: the thrown
"Failed to acquire lock ... Another process may be writing to it." error. -/
inductive SaveError where
  | lockHeld
deriving DecidableEq, Repr

/-- The retry loop of `acquireLock` in `src/history.ts`: `held i` says
whether the lock file already exists (another writer holds it) at attempt
`i`; the create-exclusive write succeeds at the first attempt where it does
not. `fuel` counts the remaining attempts. -/
def acquireLockAux (held : ℕ → Bool) : ℕ → ℕ → Bool
  | _, 0 => false
  | attempt, fuel + 1 => if held attempt then acquireLockAux held (attempt + 1) fuel else true

/-- `acquireLock` from `src/history.ts`: three create-exclusive attempts. -/
def acquireLock (held : ℕ → Bool) : Bool := acquireLockAux held 0 3

/-- `entry.runs.slice(-maxRunsPerKey)`: the most recent `m` runs — except
that JavaScript `slice(-0)` is `slice(0)`, the whole array. -/
def jsSliceLast (m : ℕ) (l : List HistoryRun) : List HistoryRun :=
  if m = 0 then l else l.drop (l.length - m)

/-- The per-entry trim in `saveHistory`: only entries with more than
`maxRunsPerKey` runs are touched. -/
def trimEntry (m : ℕ) (e : HistoryEntry) : HistoryEntry :=
  if m < e.runs.length then ⟨e.consecutiveFailures, e.lastSeen, jsSliceLast m e.runs⟩ else e

/-- The `for (const entry of Object.values(history.paths))` trim loop. -/
def trimHistoryPaths (m : ℕ) (paths : List (String × HistoryEntry)) :
    List (String × HistoryEntry) :=
  paths.map (fun kv => (kv.1, trimEntry m kv.2))

/-- `saveHistory` from `src/history.ts`: acquire the advisory lock file
(three attempts against the contention schedule `held`); on failure throw
the lock-held error and leave the on-disk file `disk` untouched; on success
trim every entry's runs, stamp `lastUpdated` with the current time, and
write the document. Returns the outcome and the resulting on-disk file. -/
def saveHistory (held : ℕ → Bool) (disk : Option History) (history : History)
    (maxRunsPerKey : ℕ) (now : String) : Except SaveError Unit × Option History :=
  if acquireLock held then
    (Except.ok (), some ⟨history.version, now, trimHistoryPaths maxRunsPerKey history.paths⟩)
  else
    (Except.error SaveError.lockHeld, disk)

/-! ### C3: consecutive-failure counter -/

/-- `entry?.consecutiveFailures ?? 0` from `src/index.ts` line 109. -/
def entryConsecutive (entry : Option HistoryEntry) : ℕ :=
  match entry with
  | none => 0
  | some e => e.consecutiveFailures


/-- Helper: for one `stepKey` application (the processing of a single raw
item), if it finds zero regressions and zero scoped failed assertions, the
stored counter and the emitted `ProfileResult`'s counter are reset to 0 and
`passed` is `true`, whatever the previous counter was; otherwise both
counters are the previous counter plus exactly 1 and `passed` is `false`. -/
theorem stepKey_consecutiveFailures (entry : Option HistoryEntry) (r : RawItem)
    (θ : ℚ) (now : String) :
    (detectRegressions r.metrics entry θ 5 = [] → r.assertions = [] →
      (stepKey entry r θ now).1.consecutiveFailures = 0 ∧
      (stepKey entry r θ now).2.consecutiveFailures = 0 ∧
      (stepKey entry r θ now).2.passed = true) ∧
    (detectRegressions r.metrics entry θ 5 ≠ [] ∨ r.assertions ≠ [] →
      (stepKey entry r θ now).1.consecutiveFailures =
        entryConsecutive entry + 1 ∧
      (stepKey entry r θ now).2.consecutiveFailures =
        entryConsecutive entry + 1 ∧
      (stepKey entry r θ now).2.passed = false) := by
  constructor
  · intro hreg hasrt
    simp [stepKey, hreg, hasrt, entryConsecutive]
  · intro hor
    have hfail : ((detectRegressions r.metrics entry θ 5).length != 0
        || (r.assertions.length != 0)) = true := by
      rcases hor with h | h
      · simp [List.length_eq_zero, h]
      · simp [List.length_eq_zero, h]
    simp [stepKey, hfail, entryConsecutive]

/-! ### C2: per-cycle append and trim -/

theorem lookupPath_setPath_self (paths : List (String × HistoryEntry)) (key : String)
    (e : HistoryEntry) : lookupPath (setPath paths key e) key = some e := by
  induction paths with
  | nil => simp [setPath, lookupPath]
  | cons p rest ih =>
    obtain ⟨k, e0⟩ := p
    by_cases hk : k = key
    · simp [setPath, hk, lookupPath]
    · simp [setPath, hk, lookupPath, ih]

theorem lookupPath_setPath_ne (paths : List (String × HistoryEntry)) (key key2 : String)
    (e : HistoryEntry) (h : key ≠ key2) :
    lookupPath (setPath paths key e) key2 = lookupPath paths key2 := by
  induction paths with
  | nil => simp [setPath, lookupPath, h]
  | cons p rest ih =>
    obtain ⟨k, e0⟩ := p
    by_cases hk : k = key
    · subst hk
      simp [setPath, lookupPath, h]
    · simp [setPath, hk, lookupPath, ih]

theorem runCycle_lookup_notin (paths : List (String × HistoryEntry)) (raws : List RawItem)
    (θ : ℚ) (now : String) (key : String) (h : ∀ r ∈ raws, historyKey r ≠ key) :
    lookupPath (runCycle paths raws θ now).1 key = lookupPath paths key := by
  induction raws generalizing paths with
  | nil => rfl
  | cons r rest ih =>
    show lookupPath (runCycle (setPath paths (historyKey r) _) rest θ now).1 key = _
    rw [ih _ (fun x hx => h x (List.mem_cons_of_mem _ hx))]
    exact lookupPath_setPath_ne _ _ _ _ (h r (List.mem_cons_self _ _))

theorem lookupPath_trimHistoryPaths (m : ℕ) (paths : List (String × HistoryEntry))
    (key : String) :
    lookupPath (trimHistoryPaths m paths) key = (lookupPath paths key).map (trimEntry m) := by
  induction paths with
  | nil => simp [trimHistoryPaths, lookupPath]
  | cons p rest ih =>
    obtain ⟨k, e⟩ := p
    by_cases hk : k = key
    · simp [trimHistoryPaths, lookupPath, hk]
    · simpa [trimHistoryPaths, lookupPath, hk] using ih

theorem trimEntry_runs_length (m : ℕ) (hm : 1 ≤ m) (e : HistoryEntry) :
    (trimEntry m e).runs.length = min m e.runs.length := by
  unfold trimEntry jsSliceLast
  split
  · next hlt =>
    rw [if_neg (by omega)]
    simp only [List.length_drop]
    omega
  · next hge =>
    simp only [not_lt] at hge
    omega

theorem trimEntry_runs_suffix (m : ℕ) (e : HistoryEntry) :
    (trimEntry m e).runs <:+ e.runs := by
  unfold trimEntry jsSliceLast
  split
  · split
    · exact List.suffix_refl _
    · exact List.drop_suffix _ _
  · exact List.suffix_refl _

/-- C2 counterexample: the claim fails at two edges. With `maxRunsPerKey = 0`
(JavaScript `slice(-0)` is `slice(0)`), `saveHistory` keeps every run — an
entry with 1 run still has 1 run afterwards, more than the supposed maximum
of 0. And when two raw items of one cycle share the same
`(profile, pathname)` key (two URLs with the same pathname), the cycle
appends two runs to that entry, not exactly one. -/
theorem c2_historyAppendTrim_counterexample :
    (∃ e, lookupPath
        (((saveHistory (fun _ => false) none
          ⟨1, "t", [("mobile:/", ⟨0, "t", [⟨Metrics.none6, "t1"⟩]⟩)]⟩ 0 "t2").2.map
          History.paths).getD []) "mobile:/" = some e ∧ ¬ e.runs.length ≤ 0) ∧
    (∃ e, lookupPath
        (runCycle [] [⟨.mobile, "https://a.com/", "/", Metrics.none6, [], [], none⟩,
          ⟨.mobile, "https://b.com/", "/", Metrics.none6, [], [], none⟩] 10 "t").1
        "mobile:/" = some e ∧ e.runs.length = 2) := by
  constructor
  · exact ⟨⟨0, "t", [⟨Metrics.none6, "t1"⟩]⟩, by decide, by decide⟩
  · exact ⟨⟨0, "t", [⟨Metrics.none6, "t"⟩, ⟨Metrics.none6, "t"⟩]⟩, by decide, by decide⟩

/-- C2 (amended): in a report cycle whose raw items carry pairwise distinct
`(profile, pathname)` keys, the history entry for each processed key evolves
by appending exactly one new run to its previous runs; `saveHistory`'s trim
with `maxRunsPerKey ≥ 1` then retains the most recent
`min maxRunsPerKey (number of runs)` runs as a suffix — oldest discarded
first, retained runs unmodified and in their original order. -/
theorem c2_historyAppendTrim (paths : List (String × HistoryEntry)) (raws : List RawItem)
    (θ : ℚ) (now : String) (m : ℕ) (hm : 1 ≤ m)
    (hnd : (raws.map historyKey).Nodup) (r : RawItem) (hr : r ∈ raws) :
    ∃ e', lookupPath (runCycle paths raws θ now).1 (historyKey r) = some e' ∧
      e'.runs = entryRuns (lookupPath paths (historyKey r)) ++ [⟨r.metrics, now⟩] ∧
      lookupPath (trimHistoryPaths m (runCycle paths raws θ now).1) (historyKey r) =
        some (trimEntry m e') ∧
      (trimEntry m e').runs.length = min m e'.runs.length ∧
      (trimEntry m e').runs <:+ e'.runs := by
  induction raws generalizing paths with
  | nil => cases hr
  | cons r0 rest ih =>
    rw [List.map_cons, List.nodup_cons] at hnd
    rcases List.mem_cons.mp hr with rfl | hr'
    · have hnotin : ∀ x ∈ rest, historyKey x ≠ historyKey r := by
        intro x hx he
        exact hnd.1 (he ▸ List.mem_map_of_mem historyKey hx)
      have hlook : lookupPath (runCycle paths (r :: rest) θ now).1 (historyKey r) =
          some (stepKey (lookupPath paths (historyKey r)) r θ now).1 := by
        show lookupPath (runCycle (setPath paths (historyKey r) _) rest θ now).1 _ = _
        rw [runCycle_lookup_notin _ _ _ _ _ hnotin]
        exact lookupPath_setPath_self _ _ _
      refine ⟨(stepKey (lookupPath paths (historyKey r)) r θ now).1, hlook, rfl, ?_,
        trimEntry_runs_length m hm _, trimEntry_runs_suffix m _⟩
      rw [lookupPath_trimHistoryPaths, hlook]
      rfl
    · have hne : historyKey r0 ≠ historyKey r := by
        intro he
        exact hnd.1 (he ▸ List.mem_map_of_mem historyKey hr')
      have := ih (setPath paths (historyKey r0)
        (stepKey (lookupPath paths (historyKey r0)) r0 θ now).1) hnd.2 hr'
      rwa [lookupPath_setPath_ne _ _ _ _ hne] at this

/-- C2 witness: a key with 9 stored runs gains a 10th in the cycle; with
`maxRunsPerKey = 3` the persisted entry keeps exactly the 3 most recent runs
(`r8`, `r9` and the new run) in original order. -/
theorem c2_historyAppendTrim_witness :
    (∃ e', lookupPath (runCycle
        [("mobile:/", ⟨0, "t0",
          [⟨Metrics.none6, "r1"⟩, ⟨Metrics.none6, "r2"⟩, ⟨Metrics.none6, "r3"⟩,
           ⟨Metrics.none6, "r4"⟩, ⟨Metrics.none6, "r5"⟩, ⟨Metrics.none6, "r6"⟩,
           ⟨Metrics.none6, "r7"⟩, ⟨Metrics.none6, "r8"⟩, ⟨Metrics.none6, "r9"⟩]⟩)]
        [⟨.mobile, "https://e.com/", "/", Metrics.none6, [], [], none⟩] 10 "now").1
        "mobile:/" = some e' ∧
      e'.runs = entryRuns (lookupPath
        [("mobile:/", ⟨0, "t0",
          [⟨Metrics.none6, "r1"⟩, ⟨Metrics.none6, "r2"⟩, ⟨Metrics.none6, "r3"⟩,
           ⟨Metrics.none6, "r4"⟩, ⟨Metrics.none6, "r5"⟩, ⟨Metrics.none6, "r6"⟩,
           ⟨Metrics.none6, "r7"⟩, ⟨Metrics.none6, "r8"⟩, ⟨Metrics.none6, "r9"⟩]⟩)]
        "mobile:/") ++ [⟨Metrics.none6, "now"⟩] ∧
      lookupPath (trimHistoryPaths 3 (runCycle
        [("mobile:/", ⟨0, "t0",
          [⟨Metrics.none6, "r1"⟩, ⟨Metrics.none6, "r2"⟩, ⟨Metrics.none6, "r3"⟩,
           ⟨Metrics.none6, "r4"⟩, ⟨Metrics.none6, "r5"⟩, ⟨Metrics.none6, "r6"⟩,
           ⟨Metrics.none6, "r7"⟩, ⟨Metrics.none6, "r8"⟩, ⟨Metrics.none6, "r9"⟩]⟩)]
        [⟨.mobile, "https://e.com/", "/", Metrics.none6, [], [], none⟩] 10 "now").1)
        "mobile:/" = some (trimEntry 3 e') ∧
      (trimEntry 3 e').runs.length = min 3 e'.runs.length ∧
      (trimEntry 3 e').runs <:+ e'.runs) ∧
    (trimEntry 3 ⟨0, "now",
        [⟨Metrics.none6, "r1"⟩, ⟨Metrics.none6, "r2"⟩, ⟨Metrics.none6, "r3"⟩,
         ⟨Metrics.none6, "r4"⟩, ⟨Metrics.none6, "r5"⟩, ⟨Metrics.none6, "r6"⟩,
         ⟨Metrics.none6, "r7"⟩, ⟨Metrics.none6, "r8"⟩, ⟨Metrics.none6, "r9"⟩,
         ⟨Metrics.none6, "now"⟩]⟩).runs =
      [⟨Metrics.none6, "r8"⟩, ⟨Metrics.none6, "r9"⟩, ⟨Metrics.none6, "now"⟩] := by
  constructor
  · exact c2_historyAppendTrim
      [("mobile:/", ⟨0, "t0",
        [⟨Metrics.none6, "r1"⟩, ⟨Metrics.none6, "r2"⟩, ⟨Metrics.none6, "r3"⟩,
         ⟨Metrics.none6, "r4"⟩, ⟨Metrics.none6, "r5"⟩, ⟨Metrics.none6, "r6"⟩,
         ⟨Metrics.none6, "r7"⟩, ⟨Metrics.none6, "r8"⟩, ⟨Metrics.none6, "r9"⟩]⟩)]
      [⟨.mobile, "https://e.com/", "/", Metrics.none6, [], [], none⟩] 10 "now" 3
      (by norm_num) (by decide)
      ⟨.mobile, "https://e.com/", "/", Metrics.none6, [], [], none⟩ (by decide)
  · decide

/-! ### C9: lock contention on saveHistory -/

/-- C9: `saveHistory` acquires the advisory lock with a create-exclusive
primitive, retrying exactly 3 attempts; when every attempt finds the lock
file already held by another process, it surfaces the distinguishable
lock-held failure and the on-disk history file is returned unmodified — the
write is simply not performed. -/
theorem c9_lockContention (held : ℕ → Bool) (disk : Option History) (h : History)
    (m : ℕ) (now : String) (hheld : ∀ i < 3, held i = true) :
    saveHistory held disk h m now = (Except.error SaveError.lockHeld, disk) := by
  have hacq : acquireLock held = false := by
    simp [acquireLock, acquireLockAux, hheld 0 (by norm_num), hheld 1 (by norm_num),
      hheld 2 (by norm_num)]
  simp [saveHistory, hacq]

/-- C9 witness: with the lock held at every attempt, saving a one-entry
history over an existing on-disk document fails with the lock-held error
and leaves the on-disk document exactly as it was. -/
theorem c9_lockContention_witness :
    saveHistory (fun _ => true)
      (some ⟨1, "old", [("mobile:/", ⟨2, "t", [⟨Metrics.fcpOnly 1, "t1"⟩]⟩)]⟩)
      ⟨1, "new", [("mobile:/", ⟨0, "t", []⟩)]⟩ 100 "now" =
      (Except.error SaveError.lockHeld,
       some ⟨1, "old", [("mobile:/", ⟨2, "t", [⟨Metrics.fcpOnly 1, "t1"⟩]⟩)]⟩) :=
  c9_lockContention (fun _ => true)
    (some ⟨1, "old", [("mobile:/", ⟨2, "t", [⟨Metrics.fcpOnly 1, "t1"⟩]⟩)]⟩)
    ⟨1, "new", [("mobile:/", ⟨0, "t", []⟩)]⟩ 100 "now" (by decide)

/-! ### Issue lifecycle (`src/issues.ts`) -/

/-- JavaScript `String.prototype.includes`: substring search on the
character list. -/
def strContainsAux (pat : List Char) : List Char → Bool
  | [] => pat.isEmpty
  | c :: t => pat.isPrefixOf (c :: t) || strContainsAux pat t

def strContains (s pat : String) : Bool := strContainsAux pat.data s.data

/-- `ISSUE_TITLE` from `src/issues.ts`. -/
def ISSUE_TITLE : String := "Lighthouse Performance Alert"

/-- `LABELS` from `src/issues.ts`. -/
def LABELS : List String := ["lighthouse", "performance"]

/-- An open issue as returned by the list-issues API. -/
structure IssueInfo where
  number : ℕ
  title : String
deriving DecidableEq, Repr

/-- `findOpenIssue` from `src/issues.ts`: list open issues carrying the
first label (the API response, or its failure, is the explicit argument),
match by title substring, and return the first match's number; any lookup
error is caught and yields `none`. -/
def findOpenIssue (resp : Except Unit (List IssueInfo)) : Option ℕ :=
  match resp with
  | .error _ => none
  | .ok issues =>
    (issues.find? (fun i => strContains i.title ISSUE_TITLE)).map IssueInfo.number

/-- Outcome of one `createLabel` API call as seen by `ensureLabels`. -/
inductive LabelOutcome where
  | created
  | conflict422
  | otherError
deriving DecidableEq, Repr

/-- The GitHub API calls `manageIssue` can issue, in order. -/
inductive ApiAction where
  | listOpenIssues (label : String)
  | createLabel (name : String)
  | createIssue (title : String) (labels : List String)
  | createComment (issue : ℕ) (body : String)
  | closeIssue (issue : ℕ)
deriving DecidableEq, Repr

/-- `ensureLabels` from `src/issues.ts`: attempt to create every label
(first component: the API calls made); a label is in the returned list when
creation succeeded or failed with the 422 already-exists conflict. -/
def ensureLabels (outcome : String → LabelOutcome) : List ApiAction × List String :=
  (LABELS.map ApiAction.createLabel,
   LABELS.filter (fun l => outcome l != LabelOutcome.otherError))

/-- The "all clear" comment body from `manageIssue`. -/
def ALL_CLEAR : String := "✅ All clear — no regressions or assertion failures."

/-- `manageIssue` from `src/issues.ts`, as the ordered list of API calls it
performs: look up the open tracking issue; on a failed analysis comment on
it or create it (ensuring labels first); on a passing analysis comment
"all clear" and close it, or do nothing further. `passed` is
`analysis.passed`; `body` stands for the out-of-scope markdown rendering
`buildIssueBody(analysis, consecutiveFailLimit)`. -/
def manageIssue (resp : Except Unit (List IssueInfo)) (outcome : String → LabelOutcome)
    (passed : Bool) (body : String) : List ApiAction :=
  ApiAction.listOpenIssues (LABELS.headD "") ::
  (if !passed then
    match findOpenIssue resp with
    | some n => [ApiAction.createComment n body]
    | none =>
      (ensureLabels outcome).1 ++ [ApiAction.createIssue ISSUE_TITLE (ensureLabels outcome).2]
  else
    match findOpenIssue resp with
    | some n => [ApiAction.createComment n ALL_CLEAR, ApiAction.closeIssue n]
    | none => [])

/-! ### C7: the four-transition issue lifecycle -/

/-- C7: `manageIssue` implements exactly the four transitions over the
single tracking issue — no open issue + failed analysis creates the issue
after ensuring labels; open issue + failed analysis comments only; open
issue + passing analysis comments "all clear" and then closes; no open
issue + passing analysis performs no API call beyond the existence check;
and a failed open-issue lookup is treated as the no-issue state. -/
theorem c7_issueLifecycle (resp : Except Unit (List IssueInfo))
    (outcome : String → LabelOutcome) (body : String) (n : ℕ) (e : Unit) :
    (findOpenIssue resp = none → manageIssue resp outcome false body =
      ApiAction.listOpenIssues "lighthouse" :: LABELS.map ApiAction.createLabel ++
      [ApiAction.createIssue ISSUE_TITLE (ensureLabels outcome).2]) ∧
    (findOpenIssue resp = some n → manageIssue resp outcome false body =
      [ApiAction.listOpenIssues "lighthouse", ApiAction.createComment n body]) ∧
    (findOpenIssue resp = some n → manageIssue resp outcome true body =
      [ApiAction.listOpenIssues "lighthouse", ApiAction.createComment n ALL_CLEAR,
       ApiAction.closeIssue n]) ∧
    (findOpenIssue resp = none → manageIssue resp outcome true body =
      [ApiAction.listOpenIssues "lighthouse"]) ∧
    findOpenIssue (Except.error e) = none := by
  refine ⟨?_, ?_, ?_, ?_, rfl⟩
  · intro h
    simp [manageIssue, h, ensureLabels, LABELS]
  · intro h
    simp [manageIssue, h, LABELS]
  · intro h
    simp [manageIssue, h, LABELS]
  · intro h
    simp [manageIssue, h, LABELS]

/-- C7 witness: with a concrete open issue number 7 whose title matches,
and with label creation succeeding, the four transitions produce exactly
the listed API call sequences, and an errored lookup yields the no-issue
state. -/
theorem c7_issueLifecycle_witness :
    (manageIssue (Except.ok []) (fun _ => LabelOutcome.created) false "body" =
      ApiAction.listOpenIssues "lighthouse" :: LABELS.map ApiAction.createLabel ++
      [ApiAction.createIssue ISSUE_TITLE
        (ensureLabels (fun _ => LabelOutcome.created)).2]) ∧
    (manageIssue (Except.ok [⟨7, "Lighthouse Performance Alert"⟩])
        (fun _ => LabelOutcome.created) false "body" =
      [ApiAction.listOpenIssues "lighthouse", ApiAction.createComment 7 "body"]) ∧
    (manageIssue (Except.ok [⟨7, "Lighthouse Performance Alert"⟩])
        (fun _ => LabelOutcome.created) true "body" =
      [ApiAction.listOpenIssues "lighthouse", ApiAction.createComment 7 ALL_CLEAR,
       ApiAction.closeIssue 7]) ∧
    (manageIssue (Except.ok []) (fun _ => LabelOutcome.created) true "body" =
      [ApiAction.listOpenIssues "lighthouse"]) ∧
    findOpenIssue (Except.error ()) = none := by
  obtain ⟨h1, h2, h3, h4, h5⟩ := c7_issueLifecycle (Except.ok [])
    (fun _ => LabelOutcome.created) "body" 7 ()
  obtain ⟨g1, g2, g3, g4, g5⟩ := c7_issueLifecycle
    (Except.ok [⟨7, "Lighthouse Performance Alert"⟩])
    (fun _ => LabelOutcome.created) "body" 7 ()
  exact ⟨h1 rfl, g2 (by decide), g3 (by decide), h4 rfl, h5⟩

/-! ### Path validation (`src/utils.ts`, `src/lhr.ts`, `src/history.ts`)

Paths are modelled as lists of characters with POSIX `node:path` semantics
(`resolve`, `relative`, `isAbsolute`), the platform the action runs on in
CI. The workspace root is assumed absolute. -/

/-- `inputPath.replace(/\\/g, "/")`. -/
def normSlashes (l : List Char) : List Char :=
  l.map (fun c => if c = '\\' then '/' else c)

/-- The two-character traversal marker `".."`. -/
def dotdot : List Char := ['.', '.']

/-- POSIX `isAbsolute` / JavaScript `startsWith("/")`. -/
def startsWithSlash : List Char → Bool
  | '/' :: _ => true
  | _ => false

/-- `String.prototype.split("/")` on the character list. -/
def splitSegs : List Char → List (List Char)
  | [] => [[]]
  | c :: rest =>
    if c = '/' then [] :: splitSegs rest
    else
      match splitSegs rest with
      | [] => [[c]]
      | s :: ss => (c :: s) :: ss

/-- One step of POSIX path normalization over the segments of an absolute
path: empty and `"."` segments vanish, `".."` pops the last kept segment
(or vanishes at the root), anything else is kept. -/
def segStep (acc : List (List Char)) (seg : List Char) : List (List Char) :=
  if seg = [] ∨ seg = ['.'] then acc
  else if seg = dotdot then acc.dropLast
  else acc ++ [seg]

/-- Normalized segment sequence of a list of raw segments. -/
def cleanSegs (segs : List (List Char)) : List (List Char) := segs.foldl segStep []

/-- Normalized segment sequence of an absolute path string. -/
def pathSegs (l : List Char) : List (List Char) := cleanSegs (splitSegs l)

/-- `Array.prototype.join("/")` on segments. -/
def joinSegs : List (List Char) → List Char
  | [] => []
  | [s] => s
  | s :: rest => s ++ '/' :: joinSegs rest

/-- POSIX normalization of an absolute path (as produced by `resolve`:
no trailing slash, `"/"` for the root). -/
def normAbs (l : List Char) : List Char := '/' :: joinSegs (pathSegs l)

/-- POSIX `resolve(base, p)` with `base` absolute. -/
def resolveAbs (base p : List Char) : List Char :=
  if startsWithSlash p then normAbs p else normAbs (base ++ '/' :: p)

/-- Strip the common leading segments of two segment sequences. -/
def stripCommon : List (List Char) → List (List Char) →
    List (List Char) × List (List Char)
  | [], t => ([], t)
  | f, [] => (f, [])
  | a :: f, b :: t => if a = b then stripCommon f t else (a :: f, b :: t)

/-- POSIX `relative(f, t)` for two absolute normalized paths: climb out of
the uncommon `f`-segments with `".."` and descend into the uncommon
`t`-segments. -/
def relativeJs (f t : List Char) : List Char :=
  joinSegs ((stripCommon (pathSegs f) (pathSegs t)).1.map (fun _ => dotdot) ++
            (stripCommon (pathSegs f) (pathSegs t)).2)

namespace Utils

/-- The regex test `/^[a-zA-Z]:/` from `src/utils.ts`. -/
def driveLetter : List Char → Bool
  | a :: b :: _ => a.isAlpha && b = ':'
  | _ => false

/-- `isPathSafe` from `src/utils.ts`: after backslash normalization, reject
a leading slash, a drive-letter prefix, and any path whose `"/"`-split
segments contain a `".."` segment. -/
def isPathSafe (p : List Char) : Bool :=
  if startsWithSlash (normSlashes p) then false
  else if driveLetter (normSlashes p) then false
  else if (splitSegs (normSlashes p)).contains dotdot then false
  else true

end Utils

namespace Lhr

/-- `isPathSafe` from `src/lhr.ts` (its own local copy): after backslash
normalization, reject any path containing `".."` as a substring or starting
with `"/"`. There is no drive-letter test here. -/
def isPathSafe (p : List Char) : Bool :=
  if dotdot <:+: normSlashes p ∨ startsWithSlash (normSlashes p) then false else true

/-- The `rel` local of `validateResultsPath`:
`relative(resolve(workspace), resolve(workspace, p))`. -/
def relOf (workspace p : List Char) : List Char :=
  relativeJs (normAbs workspace) (resolveAbs workspace p)

/-- `validateResultsPath` from `src/lhr.ts`: reject unsafe paths, reject
when `rel` is empty, starts with `".."` or is absolute, reject when the
resolved directory does not exist (`ex`), and otherwise return the resolved
path. The same `null` covers both the unsafe and the missing cases. -/
def validateResultsPath (resultsPath workspace : List Char)
    (ex : List Char → Bool) : Option (List Char) :=
  if ¬ isPathSafe resultsPath then none
  else if relOf workspace resultsPath = [] then none
  else if dotdot.isPrefixOf (relOf workspace resultsPath) then none
  else if startsWithSlash (relOf workspace resultsPath) then none
  else if ¬ ex (resolveAbs workspace resultsPath) then none
  else some (resolveAbs workspace resultsPath)

end Lhr

namespace Hist

/-- `isPathSafe` from `src/history.ts` (its own local copy, identical to
the one in `src/lhr.ts`). -/
def isPathSafe (p : List Char) : Bool :=
  if dotdot <:+: normSlashes p ∨ startsWithSlash (normSlashes p) then false else true

/-- `validateHistoryPath` from `src/history.ts`: reject unsafe paths,
then accept exactly when the resolved path starts with the resolved
workspace (as a character prefix). -/
def validateHistoryPath (historyPath workspace : List Char) : Option (List Char) :=
  if ¬ isPathSafe historyPath then none
  else if (normAbs workspace).isPrefixOf (resolveAbs workspace historyPath) then
    some (resolveAbs workspace historyPath)
  else none

end Hist

/-! ### Segment lemmas for the path model -/

theorem splitSegs_ne_nil (l : List Char) : splitSegs l ≠ [] := by
  match l with
  | [] => simp [splitSegs]
  | c :: rest =>
    unfold splitSegs
    split
    · simp
    · split <;> simp

theorem splitSegs_cons_slash (rest : List Char) :
    splitSegs ('/' :: rest) = [] :: splitSegs rest := by
  rw [splitSegs.eq_def]
  simp

theorem splitSegs_cons_ne (c : Char) (rest : List Char) (hc : ¬ c = '/') :
    splitSegs (c :: rest) =
      match splitSegs rest with
      | [] => [[c]]
      | s :: ss => (c :: s) :: ss := by
  rw [splitSegs.eq_def]
  simp [hc]

theorem splitSegs_append (a b : List Char) :
    splitSegs (a ++ '/' :: b) = splitSegs a ++ splitSegs b := by
  induction a with
  | nil => rfl
  | cons c a ih =>
    by_cases hc : c = '/'
    · subst hc
      rw [List.cons_append, splitSegs_cons_slash, splitSegs_cons_slash, ih]
      rfl
    · rw [List.cons_append, splitSegs_cons_ne c _ hc, splitSegs_cons_ne c _ hc, ih]
      rcases hsa : splitSegs a with _ | ⟨s, ss⟩
      · exact absurd hsa (splitSegs_ne_nil a)
      · simp

theorem splitSegs_head_prefix :
    ∀ (l s : List Char) (ss : List (List Char)), splitSegs l = s :: ss → s <+: l := by
  intro l
  induction l with
  | nil =>
    intro s ss h
    simp [splitSegs] at h
    simp [h.1]
  | cons c rest ih =>
    intro s ss h
    by_cases hc : c = '/'
    · subst hc
      rw [splitSegs_cons_slash] at h
      obtain rfl := (List.cons.injEq _ _ _ _ ▸ h).1
      simp
    · rw [splitSegs_cons_ne c _ hc] at h
      rcases hrec : splitSegs rest with _ | ⟨s0, ss0⟩
      · exact absurd hrec (splitSegs_ne_nil rest)
      · rw [hrec] at h
        obtain ⟨rfl, rfl⟩ :=
          (List.cons.injEq _ _ _ _ ▸ h : c :: s0 = s ∧ ss0 = ss)
        obtain ⟨t, ht⟩ := ih s0 ss0 hrec
        exact ⟨t, by simp [ht]⟩

theorem mem_splitSegs_noslash (l : List Char) : ∀ s ∈ splitSegs l, '/' ∉ s := by
  induction l with
  | nil =>
    intro s hs
    simp [splitSegs] at hs
    simp [hs]
  | cons c rest ih =>
    intro s hs
    by_cases hc : c = '/'
    · subst hc
      rw [splitSegs_cons_slash] at hs
      rcases List.mem_cons.mp hs with rfl | hmem
      · simp
      · exact ih s hmem
    · rw [splitSegs_cons_ne c _ hc] at hs
      rcases hrec : splitSegs rest with _ | ⟨s0, ss⟩
      · exact absurd hrec (splitSegs_ne_nil rest)
      · rw [hrec] at hs
        rcases List.mem_cons.mp hs with rfl | hmem
        · intro hsl
          rcases List.mem_cons.mp hsl with h7 | hmem0
          · exact hc h7.symm
          · exact ih s0 (hrec ▸ List.mem_cons_self _ _) hmem0
        · exact ih s (hrec ▸ List.mem_cons_of_mem _ hmem)

theorem mem_splitSegs_substring (l : List Char) : ∀ s ∈ splitSegs l, s <:+: l := by
  induction l with
  | nil =>
    intro s hs
    simp [splitSegs] at hs
    simp [hs]
  | cons c rest ih =>
    intro s hs
    by_cases hc : c = '/'
    · subst hc
      rw [splitSegs_cons_slash] at hs
      rcases List.mem_cons.mp hs with rfl | hmem
      · simp
      · exact (ih s hmem).trans (List.infix_cons (List.infix_refl rest))
    · rw [splitSegs_cons_ne c _ hc] at hs
      rcases hrec : splitSegs rest with _ | ⟨s0, ss⟩
      · exact absurd hrec (splitSegs_ne_nil rest)
      · rw [hrec] at hs
        rcases List.mem_cons.mp hs with rfl | hmem
        · obtain ⟨t, ht⟩ := splitSegs_head_prefix rest s0 ss hrec
          exact ⟨[], t, by simp [ht]⟩
        · exact (ih s (hrec ▸ List.mem_cons_of_mem _ hmem)).trans
            (List.infix_cons (List.infix_refl rest))

/-- A segment that survives normalization: non-empty, not `"."`, not `".."`. -/
def plainSeg (s : List Char) : Prop := s ≠ [] ∧ s ≠ ['.'] ∧ s ≠ dotdot

theorem mem_foldl_segStep (ss : List (List Char)) :
    ∀ (acc : List (List Char)), ∀ s ∈ ss.foldl segStep acc, s ∈ acc ∨ s ∈ ss := by
  induction ss with
  | nil => intro acc s hs; exact Or.inl hs
  | cons a ss ih =>
    intro acc s hs
    rw [List.foldl_cons] at hs
    rcases ih (segStep acc a) s hs with h | h
    · unfold segStep at h
      split at h
      · exact Or.inl h
      · split at h
        · exact Or.inl (List.dropLast_subset _ h)
        · rcases List.mem_append.mp h with h | h
          · exact Or.inl h
          · simp at h
            subst h
            exact Or.inr (List.mem_cons_self _ _)
    · exact Or.inr (List.mem_cons_of_mem _ h)

theorem mem_foldl_segStep_plain (ss : List (List Char)) :
    ∀ (acc : List (List Char)), (∀ s ∈ acc, plainSeg s) →
      ∀ s ∈ ss.foldl segStep acc, plainSeg s := by
  induction ss with
  | nil => intro acc hacc s hs; exact hacc s hs
  | cons a ss ih =>
    intro acc hacc s hs
    rw [List.foldl_cons] at hs
    refine ih (segStep acc a) ?_ s hs
    intro x hx
    unfold segStep at hx
    split at hx
    · exact hacc x hx
    · next hnd =>
      split at hx
      · exact hacc x (List.dropLast_subset _ hx)
      · next hdd =>
        rcases List.mem_append.mp hx with h | h
        · exact hacc x h
        · simp at h
          subst h
          push_neg at hnd
          exact ⟨hnd.1, hnd.2, hdd⟩

theorem foldl_segStep_no_dotdot (ss : List (List Char)) (h : ∀ s ∈ ss, s ≠ dotdot) :
    ∀ acc, ss.foldl segStep acc = acc ++ ss.foldl segStep [] := by
  induction ss with
  | nil => intro acc; simp
  | cons a ss ih =>
    intro acc
    have ha := h a (List.mem_cons_self _ _)
    have hs2 : ∀ s ∈ ss, s ≠ dotdot := fun s hs => h s (List.mem_cons_of_mem _ hs)
    rw [List.foldl_cons, List.foldl_cons]
    by_cases hskip : a = [] ∨ a = ['.']
    · rw [show segStep acc a = acc from by unfold segStep; rw [if_pos hskip],
          show segStep [] a = [] from by unfold segStep; rw [if_pos hskip]]
      exact ih hs2 acc
    · rw [show segStep acc a = acc ++ [a] from by unfold segStep; rw [if_neg hskip, if_neg ha],
          show segStep [] a = [a] from by unfold segStep; rw [if_neg hskip, if_neg ha]; rfl]
      rw [ih hs2 (acc ++ [a]), ih hs2 [a]]
      simp

theorem foldl_segStep_plain_append (ss : List (List Char)) (h : ∀ s ∈ ss, plainSeg s) :
    ∀ acc, ss.foldl segStep acc = acc ++ ss := by
  induction ss with
  | nil => intro acc; simp
  | cons a ss ih =>
    intro acc
    obtain ⟨h1, h2, h3⟩ := h a (List.mem_cons_self _ _)
    rw [List.foldl_cons,
      show segStep acc a = acc ++ [a] from by
        unfold segStep; rw [if_neg (by tauto), if_neg h3],
      ih (fun s hs => h s (List.mem_cons_of_mem _ hs)) (acc ++ [a])]
    simp

theorem cleanSegs_plain_id (ss : List (List Char)) (h : ∀ s ∈ ss, plainSeg s) :
    cleanSegs ss = ss := by
  unfold cleanSegs
  rw [foldl_segStep_plain_append ss h []]
  rfl

theorem mem_cleanSegs_plain (ss : List (List Char)) : ∀ s ∈ cleanSegs ss, plainSeg s :=
  mem_foldl_segStep_plain ss [] (by simp)

theorem mem_cleanSegs_sub (ss : List (List Char)) : ∀ s ∈ cleanSegs ss, s ∈ ss := by
  intro s hs
  rcases mem_foldl_segStep ss [] s hs with h | h
  · simp at h
  · exact h

theorem splitSegs_noslash_single (s : List Char) (h : '/' ∉ s) : splitSegs s = [s] := by
  induction s with
  | nil => rfl
  | cons c t ih =>
    have hc : ¬ c = '/' := fun he => h (he ▸ List.mem_cons_self _ _)
    rw [splitSegs_cons_ne c t hc, ih (fun ht => h (List.mem_cons_of_mem _ ht))]

theorem joinSegs_cons₂ (s s2 : List Char) (ss2 : List (List Char)) :
    joinSegs (s :: s2 :: ss2) = s ++ '/' :: joinSegs (s2 :: ss2) := rfl

theorem splitSegs_joinSegs (ss : List (List Char)) (hnn : ss ≠ [])
    (hns : ∀ s ∈ ss, '/' ∉ s) : splitSegs (joinSegs ss) = ss := by
  induction ss with
  | nil => contradiction
  | cons s ss ih =>
    cases ss with
    | nil =>
      show splitSegs s = [s]
      exact splitSegs_noslash_single s (hns s (List.mem_cons_self _ _))
    | cons s2 ss2 =>
      rw [joinSegs_cons₂, splitSegs_append,
        splitSegs_noslash_single s (hns s (List.mem_cons_self _ _)),
        ih (by simp) (fun x hx => hns x (List.mem_cons_of_mem _ hx))]
      rfl

theorem pathSegs_normAbs (l : List Char) : pathSegs (normAbs l) = pathSegs l := by
  have hplain := mem_cleanSegs_plain (splitSegs l)
  have hnoslash : ∀ s ∈ cleanSegs (splitSegs l), '/' ∉ s :=
    fun s hs => mem_splitSegs_noslash l s (mem_cleanSegs_sub _ s hs)
  unfold normAbs pathSegs
  rw [splitSegs_cons_slash]
  rcases hss : cleanSegs (splitSegs l) with _ | ⟨s1, ss1⟩
  · rfl
  · rw [splitSegs_joinSegs _ (by simp) (hss ▸ hnoslash)]
    unfold cleanSegs
    rw [List.foldl_cons, show segStep [] [] = [] from rfl,
      foldl_segStep_plain_append _ (hss ▸ hplain) []]
    rfl

theorem stripCommon_self_append (l t : List (List Char)) :
    stripCommon l (l ++ t) = ([], t) := by
  induction l with
  | nil => cases t <;> simp [stripCommon]
  | cons a l ih =>
    show stripCommon (a :: l) (a :: (l ++ t)) = ([], t)
    rw [stripCommon.eq_def]
    simp [ih]

theorem resolveAbs_pathSegs (ws p : List Char)
    (hp : startsWithSlash p = false)
    (hnd : ∀ s ∈ splitSegs p, s ≠ dotdot) :
    pathSegs (resolveAbs ws p) = pathSegs ws ++ cleanSegs (splitSegs p) := by
  unfold resolveAbs
  rw [if_neg (by simp [hp]), pathSegs_normAbs]
  show cleanSegs (splitSegs (ws ++ '/' :: p)) = pathSegs ws ++ cleanSegs (splitSegs p)
  rw [splitSegs_append]
  unfold cleanSegs
  rw [List.foldl_append, foldl_segStep_no_dotdot (splitSegs p) hnd]
  rfl

theorem isPathSafeLhr_facts (p : List Char) (h : Lhr.isPathSafe p = true) :
    ¬ (dotdot <:+: normSlashes p) ∧ startsWithSlash (normSlashes p) = false := by
  unfold Lhr.isPathSafe at h
  split at h
  · exact absurd h (by simp)
  · next hcond =>
    push_neg at hcond
    exact ⟨hcond.1, by simpa using hcond.2⟩

theorem isPathSafeHist_facts (p : List Char) (h : Hist.isPathSafe p = true) :
    ¬ (dotdot <:+: normSlashes p) ∧ startsWithSlash (normSlashes p) = false := by
  unfold Hist.isPathSafe at h
  split at h
  · exact absurd h (by simp)
  · next hcond =>
    push_neg at hcond
    exact ⟨hcond.1, by simpa using hcond.2⟩

theorem noslash_of_norm (p : List Char)
    (h : startsWithSlash (normSlashes p) = false) : startsWithSlash p = false := by
  cases p with
  | nil => rfl
  | cons c t =>
    by_cases hc : c = '/'
    · subst hc
      simp [normSlashes, startsWithSlash] at h
    · simp [startsWithSlash, hc]

theorem no_dotdot_segs (p : List Char) (h : ¬ dotdot <:+: normSlashes p) :
    ∀ s ∈ splitSegs p, s ≠ dotdot := by
  intro s hs he
  subst he
  apply h
  have hinf := (mem_splitSegs_substring p _ hs).map (fun c => if c = '\\' then '/' else c)
  simpa [normSlashes, dotdot] using hinf

/-! ### C8: path validation -/

/-- C8 counterexample: the validators that guard the user-supplied results
and history paths (`validateResultsPath` in `src/lhr.ts`,
`validateHistoryPath` in `src/history.ts`) use their local `isPathSafe`,
which has no drive-letter test: the drive-letter input `"c:/h.json"`
(recognised as such by the regex embedded from `src/utils.ts`, which these
validators do not call) is accepted by both — the claim that every input
containing a drive letter is rejected is false. -/
theorem c8_pathValidation_counterexample :
    Utils.driveLetter (normSlashes "c:/h.json".data) = true ∧
    Utils.isPathSafe "c:/h.json".data = false ∧
    Hist.validateHistoryPath "c:/h.json".data "/workspace".data =
      some "/workspace/c:/h.json".data ∧
    Lhr.validateResultsPath "c:/h.json".data "/workspace".data (fun _ => true) =
      some "/workspace/c:/h.json".data := by
  refine ⟨by decide, by decide, by decide, by decide⟩

/-- C8 (amended): under POSIX path semantics with an absolute workspace
root, both validators reject — returning the `none` sentinel, never
throwing — every input that is absolute (starts with `"/"` after backslash
normalization) or contains a `".."` traversal substring; and every accepted
path resolves to a location inside the workspace root: its normalized
segments extend the workspace's segments (strictly, for the results
validator). Drive-letter inputs are not rejected by these validators; on
POSIX they denote relative paths and resolve inside the workspace. -/
theorem c8_pathValidation (p ws : List Char) (ex : List Char → Bool)
    (_hws : startsWithSlash ws = true) :
    ((startsWithSlash (normSlashes p) = true ∨ dotdot <:+: normSlashes p) →
      Lhr.validateResultsPath p ws ex = none ∧ Hist.validateHistoryPath p ws = none) ∧
    (∀ res, Lhr.validateResultsPath p ws ex = some res →
      ∃ t, t ≠ [] ∧ pathSegs res = pathSegs ws ++ t) ∧
    (∀ res, Hist.validateHistoryPath p ws = some res →
      ∃ t, pathSegs res = pathSegs ws ++ t) := by
  refine ⟨?_, ?_, ?_⟩
  · intro hbad
    have hsafe : Lhr.isPathSafe p = false := by
      unfold Lhr.isPathSafe
      rw [if_pos]
      rcases hbad with h | h
      · exact Or.inr (by simp [h])
      · exact Or.inl h
    have hsafe2 : Hist.isPathSafe p = false := by
      unfold Hist.isPathSafe
      rw [if_pos]
      rcases hbad with h | h
      · exact Or.inr (by simp [h])
      · exact Or.inl h
    constructor
    · unfold Lhr.validateResultsPath
      rw [if_pos (by simp [hsafe])]
    · unfold Hist.validateHistoryPath
      rw [if_pos (by simp [hsafe2])]
  · intro res h
    unfold Lhr.validateResultsPath at h
    split at h
    · exact absurd h (by simp)
    · next hsafe_not =>
      split at h
      · exact absurd h (by simp)
      · next hrel_ne =>
        split at h
        · exact absurd h (by simp)
        · split at h
          · exact absurd h (by simp)
          · split at h
            · exact absurd h (by simp)
            · obtain rfl := Option.some.inj h
              have hsafe : Lhr.isPathSafe p = true := by
                by_contra hf
                exact hsafe_not (by simpa using hf)
              obtain ⟨hnd0, hns0⟩ := isPathSafeLhr_facts p hsafe
              have hres := resolveAbs_pathSegs ws p (noslash_of_norm p hns0)
                (no_dotdot_segs p hnd0)
              refine ⟨cleanSegs (splitSegs p), ?_, hres⟩
              intro ht
              apply hrel_ne
              unfold Lhr.relOf relativeJs
              rw [pathSegs_normAbs, hres, ht, List.append_nil,
                show stripCommon (pathSegs ws) (pathSegs ws) = ([], []) from by
                  simpa using stripCommon_self_append (pathSegs ws) []]
              rfl
  · intro res h
    unfold Hist.validateHistoryPath at h
    split at h
    · exact absurd h (by simp)
    · next hsafe_not =>
      split at h
      · obtain rfl := Option.some.inj h
        have hsafe : Hist.isPathSafe p = true := by
          by_contra hf
          exact hsafe_not (by simpa using hf)
        obtain ⟨hnd0, hns0⟩ := isPathSafeHist_facts p hsafe
        exact ⟨cleanSegs (splitSegs p),
          resolveAbs_pathSegs ws p (noslash_of_norm p hns0) (no_dotdot_segs p hnd0)⟩
      · exact absurd h (by simp)

/-- C8 witness: the traversal input `"../x"` is rejected by both
validators; the plain relative inputs `"data/r"` and `"data/h.json"` are
accepted and resolve strictly inside the absolute workspace `"/w"`. -/
theorem c8_pathValidation_witness :
    (Lhr.validateResultsPath "../x".data "/w".data (fun _ => true) = none ∧
     Hist.validateHistoryPath "../x".data "/w".data = none) ∧
    (∃ t, t ≠ [] ∧ pathSegs "/w/data/r".data = pathSegs "/w".data ++ t) ∧
    (∃ t, pathSegs "/w/data/h.json".data = pathSegs "/w".data ++ t) := by
  refine ⟨?_, ?_, ?_⟩
  · exact (c8_pathValidation "../x".data "/w".data (fun _ => true) (by decide)).1
      (Or.inr (by decide))
  · exact (c8_pathValidation "data/r".data "/w".data (fun _ => true) (by decide)).2.1
      "/w/data/r".data (by decide)
  · exact (c8_pathValidation "data/h.json".data "/w".data (fun _ => true) (by decide)).2.2
      "/w/data/h.json".data (by decide)

/-! ### C3: the consecutive-failure counter over a whole report cycle -/

/-- Under pairwise-distinct keys, the entry a full cycle stores for a raw
item's key is exactly the one `stepKey` builds from the pre-cycle entry. -/
theorem runCycle_lookup_nodup (paths : List (String × HistoryEntry)) (raws : List RawItem)
    (θ : ℚ) (now : String) (hnd : (raws.map historyKey).Nodup) (r : RawItem)
    (hr : r ∈ raws) :
    lookupPath (runCycle paths raws θ now).1 (historyKey r) =
      some (stepKey (lookupPath paths (historyKey r)) r θ now).1 := by
  induction raws generalizing paths with
  | nil => cases hr
  | cons r0 rest ih =>
    rw [List.map_cons, List.nodup_cons] at hnd
    rcases List.mem_cons.mp hr with rfl | hr'
    · have hnotin : ∀ x ∈ rest, historyKey x ≠ historyKey r := by
        intro x hx he
        exact hnd.1 (he ▸ List.mem_map_of_mem historyKey hx)
      show lookupPath (runCycle (setPath paths (historyKey r) _) rest θ now).1 _ = _
      rw [runCycle_lookup_notin _ _ _ _ _ hnotin]
      exact lookupPath_setPath_self _ _ _
    · have hne : historyKey r0 ≠ historyKey r := by
        intro he
        exact hnd.1 (he ▸ List.mem_map_of_mem historyKey hr')
      have := ih (setPath paths (historyKey r0)
        (stepKey (lookupPath paths (historyKey r0)) r0 θ now).1) hnd.2 hr'
      rwa [lookupPath_setPath_ne _ _ _ _ hne] at this

/-- Under pairwise-distinct keys, the `ProfileResult` a full cycle emits
for a raw item is the one `stepKey` builds from the pre-cycle entry. -/
theorem runCycle_result_mem (paths : List (String × HistoryEntry)) (raws : List RawItem)
    (θ : ℚ) (now : String) (hnd : (raws.map historyKey).Nodup) (r : RawItem)
    (hr : r ∈ raws) :
    (stepKey (lookupPath paths (historyKey r)) r θ now).2 ∈ (runCycle paths raws θ now).2 := by
  induction raws generalizing paths with
  | nil => cases hr
  | cons r0 rest ih =>
    rw [List.map_cons, List.nodup_cons] at hnd
    rcases List.mem_cons.mp hr with rfl | hr'
    · exact List.mem_cons_self _ _
    · have hne : historyKey r0 ≠ historyKey r := by
        intro he
        exact hnd.1 (he ▸ List.mem_map_of_mem historyKey hr')
      have := ih (setPath paths (historyKey r0)
        (stepKey (lookupPath paths (historyKey r0)) r0 θ now).1) hnd.2 hr'
      rw [lookupPath_setPath_ne _ _ _ _ hne] at this
      exact List.mem_cons_of_mem _ this

/-- C3 counterexample: when two raw items of one report cycle share the
`(profile, pathname)` key `"mobile:/"` (two URLs with the same pathname),
the source increments the counter once per item, not once per cycle: a key
previously at 5 whose items both carry a failed assertion ends the cycle at
7, not 5 + 1; and if the second item is clean, the counter ends the cycle
reset to 0 although the cycle had a failed assertion for the key. -/
theorem c3_consecutiveFailures_counterexample :
    (∃ e, lookupPath (runCycle [("mobile:/", ⟨5, "t0", []⟩)]
        [⟨.mobile, "https://a.com/", "/", Metrics.none6, [],
          [⟨"a", "error", 1, 2, "<=", false, none⟩], none⟩,
         ⟨.mobile, "https://b.com/", "/", Metrics.none6, [],
          [⟨"a", "error", 1, 2, "<=", false, none⟩], none⟩] 10 "t1").1
      "mobile:/" = some e ∧
      e.consecutiveFailures = 7 ∧ ¬ e.consecutiveFailures = 5 + 1) ∧
    (∃ e, lookupPath (runCycle [("mobile:/", ⟨5, "t0", []⟩)]
        [⟨.mobile, "https://a.com/", "/", Metrics.none6, [],
          [⟨"a", "error", 1, 2, "<=", false, none⟩], none⟩,
         ⟨.mobile, "https://b.com/", "/", Metrics.none6, [], [], none⟩] 10 "t1").1
      "mobile:/" = some e ∧ e.consecutiveFailures = 0) := by
  constructor
  · exact ⟨⟨7, "t1", [⟨Metrics.none6, "t1"⟩, ⟨Metrics.none6, "t1"⟩]⟩,
      by decide, by decide, by decide⟩
  · exact ⟨⟨0, "t1", [⟨Metrics.none6, "t1"⟩, ⟨Metrics.none6, "t1"⟩]⟩,
      by decide, by decide⟩

/-- C3 (amended): for every `(profile, pathname)` key processed at most
once in a report cycle: if that cycle has zero regressions and zero scoped
failed assertions for the key, the entry the cycle stores for it and the
`ProfileResult` the cycle emits for it carry a counter of 0 and
`passed = true`, even if the counter was previously at 5; otherwise both
carry the previous counter plus exactly 1 and `passed = false`. -/
theorem c3_consecutiveFailuresCycle (paths : List (String × HistoryEntry))
    (raws : List RawItem) (θ : ℚ) (now : String)
    (hnd : (raws.map historyKey).Nodup) (r : RawItem) (hr : r ∈ raws) :
    ∃ e', lookupPath (runCycle paths raws θ now).1 (historyKey r) = some e' ∧
      (stepKey (lookupPath paths (historyKey r)) r θ now).2 ∈
        (runCycle paths raws θ now).2 ∧
      (detectRegressions r.metrics (lookupPath paths (historyKey r)) θ 5 = [] →
        r.assertions = [] →
        e'.consecutiveFailures = 0 ∧
        (stepKey (lookupPath paths (historyKey r)) r θ now).2.consecutiveFailures = 0 ∧
        (stepKey (lookupPath paths (historyKey r)) r θ now).2.passed = true) ∧
      (detectRegressions r.metrics (lookupPath paths (historyKey r)) θ 5 ≠ [] ∨
        r.assertions ≠ [] →
        e'.consecutiveFailures = entryConsecutive (lookupPath paths (historyKey r)) + 1 ∧
        (stepKey (lookupPath paths (historyKey r)) r θ now).2.consecutiveFailures =
          entryConsecutive (lookupPath paths (historyKey r)) + 1 ∧
        (stepKey (lookupPath paths (historyKey r)) r θ now).2.passed = false) := by
  refine ⟨(stepKey (lookupPath paths (historyKey r)) r θ now).1,
    runCycle_lookup_nodup paths raws θ now hnd r hr,
    runCycle_result_mem paths raws θ now hnd r hr, ?_, ?_⟩
  · intro hreg hasrt
    exact (stepKey_consecutiveFailures (lookupPath paths (historyKey r)) r θ now).1
      hreg hasrt
  · intro hor
    exact (stepKey_consecutiveFailures (lookupPath paths (historyKey r)) r θ now).2 hor

/-- C3 witness: a one-item cycle over a key previously at 5 consecutive
failures — clean item (no regressions possible from an empty run history,
no failed assertions) resets the stored counter and the emitted result to 0
with `passed = true`; a one-item cycle whose item carries a failed
assertion increments both to 5 + 1 with `passed = false`. The final
conjuncts pin the concrete stored entries (0 and 6). -/
theorem c3_consecutiveFailuresCycle_witness :
    (∃ e', lookupPath (runCycle [("mobile:/", ⟨5, "t0", []⟩)]
        [⟨.mobile, "https://a.com/", "/", Metrics.none6, [], [], none⟩] 10 "t1").1
        (historyKey ⟨.mobile, "https://a.com/", "/", Metrics.none6, [], [], none⟩) =
        some e' ∧
      (stepKey (lookupPath [("mobile:/", ⟨5, "t0", []⟩)]
          (historyKey ⟨.mobile, "https://a.com/", "/", Metrics.none6, [], [], none⟩))
        ⟨.mobile, "https://a.com/", "/", Metrics.none6, [], [], none⟩ 10 "t1").2 ∈
        (runCycle [("mobile:/", ⟨5, "t0", []⟩)]
          [⟨.mobile, "https://a.com/", "/", Metrics.none6, [], [], none⟩] 10 "t1").2 ∧
      e'.consecutiveFailures = 0 ∧
      (stepKey (lookupPath [("mobile:/", ⟨5, "t0", []⟩)]
          (historyKey ⟨.mobile, "https://a.com/", "/", Metrics.none6, [], [], none⟩))
        ⟨.mobile, "https://a.com/", "/", Metrics.none6, [], [], none⟩
        10 "t1").2.consecutiveFailures = 0 ∧
      (stepKey (lookupPath [("mobile:/", ⟨5, "t0", []⟩)]
          (historyKey ⟨.mobile, "https://a.com/", "/", Metrics.none6, [], [], none⟩))
        ⟨.mobile, "https://a.com/", "/", Metrics.none6, [], [], none⟩ 10 "t1").2.passed
        = true) ∧
    (∃ e', lookupPath (runCycle [("mobile:/", ⟨5, "t0", []⟩)]
        [⟨.mobile, "https://a.com/", "/", Metrics.none6, [],
          [⟨"a", "error", 1, 2, "<=", false, none⟩], none⟩] 10 "t1").1
        (historyKey ⟨.mobile, "https://a.com/", "/", Metrics.none6, [],
          [⟨"a", "error", 1, 2, "<=", false, none⟩], none⟩) = some e' ∧
      e'.consecutiveFailures = 5 + 1) ∧
    lookupPath (runCycle [("mobile:/", ⟨5, "t0", []⟩)]
      [⟨.mobile, "https://a.com/", "/", Metrics.none6, [], [], none⟩] 10 "t1").1
      "mobile:/" = some ⟨0, "t1", [⟨Metrics.none6, "t1"⟩]⟩ ∧
    lookupPath (runCycle [("mobile:/", ⟨5, "t0", []⟩)]
      [⟨.mobile, "https://a.com/", "/", Metrics.none6, [],
        [⟨"a", "error", 1, 2, "<=", false, none⟩], none⟩] 10 "t1").1
      "mobile:/" = some ⟨6, "t1", [⟨Metrics.none6, "t1"⟩]⟩ := by
  refine ⟨?_, ?_, by decide, by decide⟩
  · obtain ⟨e', h1, h2, h3, _⟩ := c3_consecutiveFailuresCycle
      [("mobile:/", ⟨5, "t0", []⟩)]
      [⟨.mobile, "https://a.com/", "/", Metrics.none6, [], [], none⟩] 10 "t1"
      (by decide) ⟨.mobile, "https://a.com/", "/", Metrics.none6, [], [], none⟩
      (by decide)
    obtain ⟨g1, g2, g3⟩ := h3 (by decide) rfl
    exact ⟨e', h1, h2, g1, g2, g3⟩
  · obtain ⟨e', h1, _, _, h4⟩ := c3_consecutiveFailuresCycle
      [("mobile:/", ⟨5, "t0", []⟩)]
      [⟨.mobile, "https://a.com/", "/", Metrics.none6, [],
        [⟨"a", "error", 1, 2, "<=", false, none⟩], none⟩] 10 "t1"
      (by decide) ⟨.mobile, "https://a.com/", "/", Metrics.none6, [],
        [⟨"a", "error", 1, 2, "<=", false, none⟩], none⟩
      (by decide)
    obtain ⟨g1, _, _⟩ := h4 (Or.inr (by decide))
    exact ⟨e', h1, g1⟩
